import Mathlib

/-!
Shallow embedding of the ADOGENT frontend (marketplace, product-creation
form, AI assistant, shared API client) for checking its specification.
Each definition is translated from the corresponding TypeScript source
function; JavaScript truthiness and number semantics are made explicit.
-/

namespace Adogent

/-- JavaScript `x || d` for an optional string field: `undefined`, `null`
and the empty string are falsy. -/
def jsOrS (o : Option String) (d : String) : String :=
  match o with
  | none => d
  | some s => if s = "" then d else s

/-- JavaScript `x || d` for an optional number field: `undefined`, `null`
and `0` are falsy. -/
def jsOrN (o : Option Nat) (d : Nat) : Nat :=
  match o with
  | none => d
  | some n => if n = 0 then d else n

/-- Truthiness of an optional string (`undefined`/`null`/`""` falsy). -/
def jsTruthyS (o : Option String) : Bool :=
  match o with
  | none => false
  | some s => s ≠ ""

/-- JavaScript `Math.round` on an exact rational: round half toward
positive infinity. -/
def jsRound (q : Rat) : Int := ⌊q + 1/2⌋

namespace Marketplace

/-- From `MarketPlace.tsx`, `getDiscountPercentage(price, comparePrice)`:
`if (!comparePrice || comparePrice <= price) return 0;
 return Math.round(((comparePrice - price) / comparePrice) * 100);`
(`!comparePrice` is true when the argument is `undefined` or `0`). -/
def getDiscountPercentage (price : Rat) (comparePrice : Option Rat) : Int :=
  match comparePrice with
  | none => 0
  | some c => if c = 0 ∨ c ≤ price then 0 else jsRound ((c - price) / c * 100)

/-- From `MarketPlace.tsx`, the discount-badge render guard:
`product.compare_at_price && product.compare_at_price > product.price`. -/
def discountBadgeShown (price : Rat) (comparePrice : Option Rat) : Bool :=
  match comparePrice with
  | none => false
  | some c => c ≠ 0 && price < c

end Marketplace

namespace CreateProduct

/-- A character kept verbatim by the slug regex `[^a-z0-9]+`:
a lowercase ASCII letter or an ASCII digit. -/
def isSlugChar (c : Char) : Bool :=
  (decide ('a' ≤ c) && decide (c ≤ 'z')) || (decide ('0' ≤ c) && decide (c ≤ '9'))

/-- The global replace of `/[^a-z0-9]+/g` by `'-'`: each maximal run of
characters outside `[a-z0-9]` becomes a single hyphen.  The flag records
whether the previous character was inside such a run. -/
def collapseRuns : Bool → List Char → List Char
  | _, [] => []
  | inRun, c :: cs =>
    if isSlugChar c then c :: collapseRuns false cs
    else if inRun then collapseRuns true cs
    else '-' :: collapseRuns true cs

/-- Remove a maximal trailing run of hyphens (the `-+$` half of the
trimming regex `/^-+|-+$/g`). -/
def dropTrailingHyphens (l : List Char) : List Char :=
  (l.reverse.dropWhile (fun c => c == '-')).reverse

/-- From `CreateProduct.tsx`, `generateSlug(name)`:
`name.toLowerCase().replace(/[^a-z0-9]+/g, '-').replace(/^-+|-+$/g, '')`.
Lower-casing is ASCII `toLowerCase` (the only case-mapping the example and
form data exercise). -/
def generateSlug (name : String) : String :=
  ⟨dropTrailingHyphens
    ((collapseRuns false (name.data.map Char.toLower)).dropWhile (fun c => c == '-'))⟩

/-- From `CreateProduct.tsx`, `handleSubmit`: the submitted slug is
`formData.slug || generateSlug(formData.name)` (a blank slug field is the
empty string, which is falsy). -/
def submittedSlug (slugField name : String) : String :=
  if slugField = "" then generateSlug name else slugField

/-- Specification-worded slug pipeline, step 2: the maximal runs of
characters inside `[a-z0-9]`, in order. -/
def alnumRuns : List Char → List (List Char)
  | [] => []
  | c :: cs =>
    if isSlugChar c then
      (c :: cs.takeWhile isSlugChar) :: alnumRuns (cs.dropWhile isSlugChar)
    else
      alnumRuns cs
termination_by l => l.length
decreasing_by
  · simp only [List.length_cons]
    exact Nat.lt_succ_of_le (List.dropWhile_sublist isSlugChar).length_le
  · simp

/-- Specification-worded slug pipeline, step 3: join the runs with single
hyphens (so each maximal non-alphanumeric run became one hyphen and no
leading or trailing hyphen remains). -/
def joinRuns : List (List Char) → List Char
  | [] => []
  | [r] => r
  | r :: rs => r ++ '-' :: joinRuns rs

/-- The slug as the specification words it: lower-case the name, replace
every maximal run of characters outside `[a-z0-9]` by a single hyphen and
strip leading and trailing hyphens — equivalently, join the maximal
alphanumeric runs of the lower-cased name with single hyphens. -/
def slugSpecWords (name : String) : String :=
  ⟨joinRuns (alnumRuns (name.data.map Char.toLower))⟩

end CreateProduct

namespace ProductService

/-- A product image as typed in `product.service.ts`. -/
structure ProductImage where
  id : String
  url : String
  alt_text : Option String
  position : Nat
deriving DecidableEq, Repr

/-- A raw product object as the backend may return it: enum-like and
defaultable fields may be absent (`none`); the remaining fields pass
through the spread `...product` unchanged. -/
structure RawProduct where
  id : String
  name : String
  price : Rat
  status : Option String
  condition : Option String
  quantity : Option Nat
  is_featured : Option Bool
  images : Option (List ProductImage)
  tags : Option (List String)
  created_at : Option String
  updated_at : Option String
deriving DecidableEq, Repr

/-- A product after `normalizeProduct` in `ProductService.getProducts`. -/
structure NProduct where
  id : String
  name : String
  price : Rat
  status : String
  condition : String
  quantity : Nat
  is_featured : Bool
  images : List ProductImage
  tags : List String
  created_at : String
  updated_at : String
deriving DecidableEq, Repr

/-- From `product.service.ts`, `normalizeProduct` (the `now` argument is
the ISO string produced by `new Date().toISOString()`):
status is `(product.status || 'active').toLowerCase()`, condition is
`product.condition || 'new'` (no lower-casing), and the remaining fields
get `|| 0`, `|| false`, `|| []` and `|| now` defaults. -/
def normalizeProduct (now : String) (p : RawProduct) : NProduct where
  id := p.id
  name := p.name
  price := p.price
  status := (jsOrS p.status "active").toLower
  condition := jsOrS p.condition "new"
  quantity := jsOrN p.quantity 0
  is_featured := p.is_featured.getD false
  images := p.images.getD []
  tags := p.tags.getD []
  created_at := jsOrS p.created_at now
  updated_at := jsOrS p.updated_at now

/-- The fields of a non-array `getProducts` response object; absent fields
are `none`.  Arrays are always truthy in JavaScript, so truthiness of the
array-valued fields is just presence. -/
structure RawListObj where
  products : Option (List RawProduct)
  items : Option (List RawProduct)
  results : Option (List RawProduct)
  total : Option Nat
  page : Option Nat
  size : Option Nat
  limit : Option Nat
  pages : Option Nat
deriving DecidableEq, Repr

/-- A `getProducts` backend response: a bare array or an object. -/
inductive RawListResponse where
  | arr (ps : List RawProduct)
  | obj (o : RawListObj)
deriving DecidableEq, Repr

/-- The canonical paginated list shape `ProductListResponse`. -/
structure ProductListResponse where
  items : List NProduct
  total : Nat
  page : Nat
  limit : Nat
  pages : Nat
deriving DecidableEq, Repr

/-- From `product.service.ts`, the response normalization in
`getProducts`: a bare array maps to the array with synthetic pagination;
an object with a `products` field uses it; otherwise `items`/`results`
(defaulting to `[]`) are used, with `total || 0`, `page || 1`,
`size || limit || 10` and `pages || 1`. -/
def getProductsNormalize (now : String) : RawListResponse → ProductListResponse
  | .arr ps =>
    { items := ps.map (normalizeProduct now)
      total := ps.length
      page := 1
      limit := ps.length
      pages := 1 }
  | .obj o =>
    match o.products with
    | some ps =>
      { items := ps.map (normalizeProduct now)
        total := jsOrN o.total ps.length
        page := jsOrN o.page 1
        limit := jsOrN o.size (jsOrN o.limit ps.length)
        pages := jsOrN o.pages 1 }
    | none =>
      let ps := ((o.items).orElse (fun _ => o.results)).getD []
      { items := ps.map (normalizeProduct now)
        total := jsOrN o.total 0
        page := jsOrN o.page 1
        limit := jsOrN o.size (jsOrN o.limit 10)
        pages := jsOrN o.pages 1 }

/-- Re-encode a normalized product as a raw backend object (every field
present), to feed the normalizer its own output. -/
def encodeProduct (p : NProduct) : RawProduct where
  id := p.id
  name := p.name
  price := p.price
  status := some p.status
  condition := some p.condition
  quantity := some p.quantity
  is_featured := some p.is_featured
  images := some p.images
  tags := some p.tags
  created_at := some p.created_at
  updated_at := some p.updated_at

/-- Re-encode a normalized list response as a raw response object (its
fields are named `items`, `total`, `page`, `limit`, `pages`). -/
def encodeList (r : ProductListResponse) : RawListResponse :=
  .obj
    { products := none
      items := some (r.items.map encodeProduct)
      results := none
      total := some r.total
      page := some r.page
      size := none
      limit := some r.limit
      pages := some r.pages }

end ProductService

namespace ApiClient

/-- The shared client timeout: `API_CONFIG.TIMEOUT = 30000` ms. -/
def API_CONFIG_TIMEOUT : Nat := 30000

/-- A JavaScript `Headers` object: a case-insensitive map from header
names to values (keys stored lower-cased). -/
def Headers : Type := String → Option String

/-- A `Headers` object with no entries. -/
def emptyHeaders : Headers := fun _ => none

/-- `headers.has(name)` (case-insensitive). -/
def hasHeader (h : Headers) (name : String) : Bool := (h name.toLower).isSome

/-- `headers.set(name, value)` (case-insensitive). -/
def setHeader (h : Headers) (name value : String) : Headers :=
  fun k => if k = name.toLower then some value else h k

/-- `headers.get(name)` (case-insensitive). -/
def getHeader (h : Headers) (name : String) : Option String := h name.toLower

/-- The two tokens held in browser storage (`localStorage` keys `token`
and `refresh_token`); `none` when absent. -/
structure AuthState where
  token : Option String
  refresh : Option String
deriving DecidableEq, Repr

/-- From `client.ts`, `ApiClient.buildHeaders`: add a JSON content type
unless present, then add `Authorization: Bearer <token>` when a token is
stored (truthy) and the caller did not set an Authorization header. -/
def buildHeaders (custom : Headers) (st : AuthState) : Headers :=
  let h1 := if hasHeader custom "Content-Type" then custom
            else setHeader custom "Content-Type" "application/json"
  match st.token with
  | some t =>
    if t ≠ "" ∧ hasHeader h1 "Authorization" = false then
      setHeader h1 "Authorization" ("Bearer " ++ t)
    else h1
  | none => h1

/-- A JavaScript exception as seen by the client (only its `name` and
`message` matter to `fetchWithTimeout`). -/
structure JsError where
  name : String
  message : String
deriving DecidableEq, Repr

/-- The typed `ApiError` raised by the client. -/
structure ApiErrorT where
  message : String
  status : Option Nat
deriving DecidableEq, Repr

/-- How the underlying `fetch` behaves relative to the abort timer:
either it settles (fulfilled or rejected) before the timer fires, or the
timer fires first, aborting it (a fetch aborted through its signal
rejects with an `AbortError`). -/
inductive FetchOutcome (ρ : Type) where
  | settled (res : Except JsError ρ)
  | timedOut
deriving Repr

/-- From `client.ts`, `ApiClient.fetchWithTimeout`: an abort-timer
expiration (or any `AbortError` rejection) becomes
`ApiError('Request timeout', 408)`; any other rejection is re-thrown
unchanged (`Sum.inl`); a settled response passes through. -/
def fetchWithTimeout {ρ : Type} (o : FetchOutcome ρ) : Except (JsError ⊕ ApiErrorT) ρ :=
  match o with
  | .settled (.ok r) => .ok r
  | .settled (.error e) =>
    if e.name = "AbortError" then .error (.inr ⟨"Request timeout", some 408⟩)
    else .error (.inl e)
  | .timedOut => .error (.inr ⟨"Request timeout", some 408⟩)

/-- A JavaScript value as it can appear in a `params` bag. -/
inductive JsVal where
  | undef
  | jsNull
  | str (s : String)
  | num (n : Rat)
  | boolean (b : Bool)
deriving DecidableEq, Repr

/-- `value.toString()` for the params-bag values. -/
def jsValToString : JsVal → String
  | .undef => "undefined"
  | .jsNull => "null"
  | .str s => s
  | .num n => toString n
  | .boolean b => if b then "true" else "false"

/-- From `client.ts`, `ApiClient.buildUrl`: the query parameters appended
to the URL — every key of the bag whose value is neither `undefined` nor
`null`, with the value stringified, in bag order. -/
def buildQuery (params : List (String × JsVal)) : List (String × String) :=
  params.filterMap (fun kv =>
    match kv.2 with
    | .undef => none
    | .jsNull => none
    | v => some (kv.1, jsValToString v))

/-- From `client.ts`, `ApiClient.buildUrl`: base URL concatenated with
the endpoint, plus the appended query pairs (empty when no params bag is
given). -/
def buildUrl (baseUrl endpoint : String) (params : Option (List (String × JsVal))) :
    String × List (String × String) :=
  (baseUrl ++ endpoint,
    match params with
    | none => []
    | some ps => buildQuery ps)

/-- `url.toString()`: the query string is appended only when at least one
query parameter was appended. -/
def renderUrl (u : String × List (String × String)) : String :=
  u.1 ++ (if u.2 = [] then ""
          else "?" ++ String.intercalate "&" (u.2.map (fun kv => kv.1 ++ "=" ++ kv.2)))

end ApiClient

namespace AuthService

/-- The token fields of a login/register response body. -/
structure AuthResponse where
  access_token : String
  refresh_token : String
deriving DecidableEq, Repr

/-- From `auth.service.ts`, the token-storing side effect shared by
`login` and `register`:
`if (response.access_token) { authToken.set(...); if (response.refresh_token) localStorage.setItem('refresh_token', ...) }`. -/
def storeTokens (resp : AuthResponse) (st : ApiClient.AuthState) : ApiClient.AuthState :=
  if resp.access_token ≠ "" then
    { token := some resp.access_token
      refresh := if resp.refresh_token ≠ "" then some resp.refresh_token else st.refresh }
  else st

/-- From `auth.service.ts`, `logout`: try the server call, and in the
`finally` block clear both stored tokens regardless of whether the server
call failed. -/
def logoutState (serverCallFailed : Bool) (st : ApiClient.AuthState) : ApiClient.AuthState :=
  match serverCallFailed, st with
  | _, _ => { token := none, refresh := none }

end AuthService

namespace Marketplace

/-- One chat turn as seen by the conversation-id state: a successful
response carrying an optional `conversation_id`, or a thrown error. -/
inductive TurnOutcome where
  | ok (conversation_id : Option String)
  | err
deriving DecidableEq, Repr

/-- `conversation_id: conversationId || undefined` — the id sent with a
turn. -/
def sentConversationId (st : Option String) : Option String :=
  if jsTruthyS st then st else none

/-- From `MarketPlace.tsx`, `sendChatMessage` (and the identical
`QuickActions` handler): on success,
`if (!conversationId && response.conversation_id) setConversationId(...)`;
the `catch` branch leaves the id untouched. -/
def stepConversation (st : Option String) (o : TurnOutcome) : Option String :=
  match o with
  | .err => st
  | .ok respId =>
    if jsTruthyS st = false ∧ jsTruthyS respId = true then respId else st

end Marketplace

namespace CreateProduct

/-- A category option of the product-creation form. -/
structure Category where
  id : String
  name : String
  slug : String
deriving DecidableEq, Repr

/-- A `/categories` response: a bare array, or an object whose
`categories`/`items` fields may be absent (arrays, even empty ones, are
truthy in JavaScript). -/
inductive RawCatsResponse where
  | arr (cs : List Category)
  | obj (categories : Option (List Category)) (items : Option (List Category))
deriving DecidableEq, Repr

/-- The synthetic fallback category. -/
def generalCategory : Category :=
  { id := "default-category", name := "General", slug := "general" }

/-- From `CreateProduct.tsx`, `fetchCategories`: an array response is
adopted as-is; otherwise a truthy `categories` or `items` field is used;
otherwise — and on a rejected request — the single synthetic "General"
category. -/
def fetchCategoriesResult : Except Unit RawCatsResponse → List Category
  | .error _ => [generalCategory]
  | .ok (.arr cs) => cs
  | .ok (.obj (some cs) _) => cs
  | .ok (.obj none (some cs)) => cs
  | .ok (.obj none none) => [generalCategory]

/-- From `CreateProduct.tsx`, `handleImageChange`: reject the whole
selection with an error toast when it would push the staged count past 5,
otherwise append the new files.  Returns the new staged list and whether
the error toast fired. -/
def handleImageChange {α : Type} (images newFiles : List α) : List α × Bool :=
  if newFiles.length + images.length > 5 then (images, true)
  else (images ++ newFiles, false)

end CreateProduct

namespace AIAssistant

/-- From `AIAssistant.tsx`, `handleImageUpload`: a selected file bigger
than 5 MB is rejected with an error toast and nothing is staged; an
accepted file's data URL replaces the staged image.  The file is a
(size-in-bytes, data-URL) pair; `none` means no file was selected. -/
def handleImageUpload (staged : Option String) (file : Option (Nat × String)) :
    Option String × Bool :=
  match file with
  | none => (staged, false)
  | some (size, dataUrl) =>
    if size > 5 * 1024 * 1024 then (staged, true) else (some dataUrl, false)

end AIAssistant

end Adogent

namespace Adogent

/-- C1: on the marketplace grid, a product with a compare-at price strictly
above its (non-negative) price shows a discount badge whose percentage is
`round((compare_at_price - price) / compare_at_price * 100)`; when the
compare-at price is absent or at most the price, no badge is shown and the
computed discount is `0`. -/
theorem discount_badge_correct (price : Rat) (comparePrice : Option Rat)
    (hp : 0 ≤ price) :
    (∀ c, comparePrice = some c → price < c →
      Marketplace.discountBadgeShown price comparePrice = true ∧
      Marketplace.getDiscountPercentage price comparePrice
        = jsRound ((c - price) / c * 100)) ∧
    ((comparePrice = none ∨ ∃ c, comparePrice = some c ∧ c ≤ price) →
      Marketplace.discountBadgeShown price comparePrice = false ∧
      Marketplace.getDiscountPercentage price comparePrice = 0) := by
  constructor
  · intro c hc hlt
    subst hc
    have hc0 : c ≠ 0 := by
      intro h
      rw [h] at hlt
      exact absurd hp (not_le.mpr hlt)
    constructor
    · simp [Marketplace.discountBadgeShown, hc0, hlt]
    · simp [Marketplace.getDiscountPercentage, hc0, not_le.mpr hlt]
  · intro h
    rcases h with h | ⟨c, hc, hle⟩
    · subst h
      exact ⟨rfl, rfl⟩
    · subst hc
      constructor
      · simp [Marketplace.discountBadgeShown]
        intro _
        exact hle
      · simp [Marketplace.getDiscountPercentage, hle]

/-- C1 witness: price 170 with compare-at price 200 shows a badge of
`round(30/200*100) = 15` percent. -/
theorem discount_badge_correct_witness :
    (Marketplace.discountBadgeShown 170 (some 200) = true ∧
      Marketplace.getDiscountPercentage 170 (some 200)
        = jsRound ((200 - 170) / 200 * 100)) ∧
    Marketplace.getDiscountPercentage 170 (some 200) = 15 :=
  ⟨(discount_badge_correct 170 (some 200) (by decide)).1 200 rfl (by decide),
   by norm_num [Marketplace.getDiscountPercentage, jsRound]⟩

namespace CreateProduct

theorem slugChar_ne_hyphen {c : Char} (h : isSlugChar c = true) : (c == '-') = false := by
  cases hc : c == '-'
  · rfl
  · have : c = '-' := eq_of_beq hc
    subst this
    exact absurd h (by decide)

theorem dropWhile_eq_self_of_none {p : Char → Bool} {l : List Char}
    (h : ∀ c ∈ l, p c = false) : l.dropWhile p = l := by
  cases l with
  | nil => rfl
  | cons c cs => simp [List.dropWhile_cons, h c (by simp)]

theorem dropWhile_head_false {p : Char → Bool} :
    ∀ (l : List Char) {d : Char} {ds : List Char},
      l.dropWhile p = d :: ds → p d = false := by
  intro l
  induction l with
  | nil => intro d ds h; simp at h
  | cons c cs ih =>
    intro d ds h
    rw [List.dropWhile_cons] at h
    by_cases hc : p c
    · rw [if_pos hc] at h
      exact ih h
    · rw [if_neg hc] at h
      cases h
      simpa using hc

theorem collapseRuns_false_cases (l : List Char) :
    collapseRuns false l = collapseRuns true l ∨
      collapseRuns false l = '-' :: collapseRuns true l := by
  cases l with
  | nil => left; rfl
  | cons c cs =>
    by_cases h : isSlugChar c
    · left; simp [collapseRuns, h]
    · right; simp [collapseRuns, h]

theorem dropWhile_collapseRuns_true (l : List Char) :
    (collapseRuns true l).dropWhile (fun c => c == '-') = collapseRuns true l := by
  induction l with
  | nil => rfl
  | cons c cs ih =>
    by_cases h : isSlugChar c
    · simp only [collapseRuns, h, if_true]
      rw [List.dropWhile_cons, if_neg (by simp [slugChar_ne_hyphen h])]
    · simpa [collapseRuns, h] using ih

theorem dropWhile_collapseRuns_false (l : List Char) :
    (collapseRuns false l).dropWhile (fun c => c == '-') = collapseRuns true l := by
  rcases collapseRuns_false_cases l with h | h
  · rw [h, dropWhile_collapseRuns_true]
  · rw [h, List.dropWhile_cons, if_pos (by decide), dropWhile_collapseRuns_true]

theorem collapseRuns_false_word (w : List Char) (rest : List Char)
    (hw : ∀ c ∈ w, isSlugChar c = true) :
    collapseRuns false (w ++ rest) = w ++ collapseRuns false rest := by
  induction w with
  | nil => rfl
  | cons c cs ih =>
    have hc := hw c (by simp)
    simp only [List.cons_append, collapseRuns, hc, if_true]
    show c :: collapseRuns false (cs ++ rest) = c :: (cs ++ collapseRuns false rest)
    rw [ih (fun d hd => hw d (by simp [hd]))]

theorem dropTrailingHyphens_append (a b : List Char)
    (ha : ∀ c ∈ a, (c == '-') = false) :
    dropTrailingHyphens (a ++ b) = a ++ dropTrailingHyphens b := by
  unfold dropTrailingHyphens
  rw [List.reverse_append, List.dropWhile_append]
  by_cases hb : (b.reverse.dropWhile (fun c => c == '-')).isEmpty
  · rw [if_pos hb]
    rw [List.isEmpty_iff] at hb
    rw [hb, List.reverse_nil, List.append_nil,
      dropWhile_eq_self_of_none (by intro c hc; exact ha c (by simpa using hc)),
      List.reverse_reverse]
  · rw [if_neg hb, List.reverse_append, List.reverse_reverse]

theorem dropTrailingHyphens_hyphen_cons (y : List Char) :
    dropTrailingHyphens ('-' :: y) =
      if dropTrailingHyphens y = [] then [] else '-' :: dropTrailingHyphens y := by
  unfold dropTrailingHyphens
  rw [show ('-' :: y) = ['-'] ++ y by rfl, List.reverse_append, List.dropWhile_append]
  by_cases hy : (y.reverse.dropWhile (fun c => c == '-')).isEmpty
  · rw [List.isEmpty_iff] at hy
    rw [if_pos (by simp [hy]), hy]
    simp
  · rw [List.isEmpty_iff] at hy
    rw [if_neg (by simpa using hy), if_neg (by simpa using hy)]
    simp

theorem alnumRuns_nil : alnumRuns [] = [] := by
  simp [alnumRuns]

theorem alnumRuns_cons_pos (c : Char) (cs : List Char) (h : isSlugChar c = true) :
    alnumRuns (c :: cs) =
      (c :: cs.takeWhile isSlugChar) :: alnumRuns (cs.dropWhile isSlugChar) := by
  simp [alnumRuns, h]

theorem alnumRuns_cons_neg (c : Char) (cs : List Char) (h : isSlugChar c = false) :
    alnumRuns (c :: cs) = alnumRuns cs := by
  simp [alnumRuns, h]

theorem alnumRuns_ne_nil :
    ∀ (l : List Char), ∀ R ∈ alnumRuns l, R ≠ []
  | [] => by simp [alnumRuns_nil]
  | c :: cs => by
    by_cases h : isSlugChar c
    · rw [alnumRuns_cons_pos c cs h]
      intro R hR
      rcases List.mem_cons.mp hR with rfl | hR
      · simp
      · exact alnumRuns_ne_nil (cs.dropWhile isSlugChar) R hR
    · rw [alnumRuns_cons_neg c cs (by simpa using h)]
      exact alnumRuns_ne_nil cs
termination_by l => l.length
decreasing_by
  · simp only [List.length_cons]
    exact Nat.lt_succ_of_le (List.dropWhile_sublist isSlugChar).length_le
  · simp

theorem joinRuns_cons_ne_nil (R : List Char) (Rs : List (List Char)) (hR : R ≠ []) :
    joinRuns (R :: Rs) ≠ [] := by
  cases Rs with
  | nil => simpa [joinRuns] using hR
  | cons S Ss => simp [joinRuns]

theorem dropTrailing_collapse_true :
    ∀ (l : List Char),
      dropTrailingHyphens (collapseRuns true l) = joinRuns (alnumRuns l)
  | [] => by rw [alnumRuns_nil]; rfl
  | c :: cs => by
    by_cases h : isSlugChar c
    · have hwslug : ∀ d ∈ cs.takeWhile isSlugChar, isSlugChar d = true :=
        fun d hd => List.mem_takeWhile_imp hd
      have h1 : collapseRuns true (c :: cs)
          = (c :: cs.takeWhile isSlugChar) ++ collapseRuns false (cs.dropWhile isSlugChar) := by
        simp only [collapseRuns, h, if_true]
        conv_lhs => rw [← List.takeWhile_append_dropWhile isSlugChar cs]
        rw [collapseRuns_false_word _ _ hwslug]
        simp
      have hnohyp : ∀ d ∈ (c :: cs.takeWhile isSlugChar), (d == '-') = false := by
        intro d hd
        rcases List.mem_cons.mp hd with rfl | hd
        · exact slugChar_ne_hyphen h
        · exact slugChar_ne_hyphen (hwslug d hd)
      rw [h1, dropTrailingHyphens_append _ _ hnohyp, alnumRuns_cons_pos c cs h]
      cases hr2 : cs.dropWhile isSlugChar with
      | nil =>
        simp [collapseRuns, dropTrailingHyphens, alnumRuns_nil, joinRuns]
      | cons d ds =>
        have hd : isSlugChar d = false := dropWhile_head_false cs hr2
        have h3 : collapseRuns false (d :: ds) = '-' :: collapseRuns true ds := by
          simp [collapseRuns, hd]
        rw [h3, dropTrailingHyphens_hyphen_cons, dropTrailing_collapse_true ds,
          alnumRuns_cons_neg d ds hd]
        cases hRs : alnumRuns ds with
        | nil => simp [joinRuns, alnumRuns_nil]
        | cons R Rs =>
          have hRne : R ≠ [] :=
            alnumRuns_ne_nil ds R (by rw [hRs]; exact List.mem_cons_self R Rs)
          rw [if_neg (joinRuns_cons_ne_nil R Rs hRne)]
          simp [joinRuns]
    · have h1 : collapseRuns true (c :: cs) = collapseRuns true cs := by
        simp [collapseRuns, h]
      rw [h1, alnumRuns_cons_neg c cs (by simpa using h)]
      exact dropTrailing_collapse_true cs
termination_by l => l.length
decreasing_by
  · simp only [List.length_cons]
    have : ds.length < (cs.dropWhile isSlugChar).length := by rw [hr2]; simp
    have h2 : (cs.dropWhile isSlugChar).length ≤ cs.length :=
      (List.dropWhile_sublist isSlugChar).length_le
    omega
  · simp

theorem generateSlug_eq_slugSpecWords (name : String) :
    generateSlug name = slugSpecWords name := by
  unfold generateSlug slugSpecWords
  rw [dropWhile_collapseRuns_false, dropTrailing_collapse_true]

end CreateProduct

/-- C2: when the slug form field is blank, product-creation submission
derives the slug from the name by lower-casing it, replacing every maximal
run of characters outside `[a-z0-9]` with a single hyphen and trimming
leading/trailing hyphens (so "Nike Air Jordan 1 Retro High" gives
"nike-air-jordan-1-retro-high"); a non-blank slug field is used unchanged. -/
theorem slug_autoderivation (name slugField : String) :
    CreateProduct.submittedSlug "" "Nike Air Jordan 1 Retro High"
      = "nike-air-jordan-1-retro-high" ∧
    (slugField ≠ "" → CreateProduct.submittedSlug slugField name = slugField) ∧
    CreateProduct.submittedSlug "" name = CreateProduct.slugSpecWords name := by
  refine ⟨by decide, fun hs => ?_, ?_⟩
  · rw [CreateProduct.submittedSlug, if_neg hs]
  · rw [CreateProduct.submittedSlug, if_pos rfl,
      CreateProduct.generateSlug_eq_slugSpecWords]

/-- C2 witness: a non-blank slug field is passed through unchanged, and
the example name derives its expected slug. -/
theorem slug_autoderivation_witness :
    CreateProduct.submittedSlug "my-slug" "Anything" = "my-slug" :=
  (slug_autoderivation "Anything" "my-slug").2.1 (by decide)

theorem jsOrN_some_self (n : Nat) : jsOrN (some n) 0 = n := by
  by_cases h : n = 0 <;> simp [jsOrN, h]

theorem jsOrN_some_of_ne (n d : Nat) (h : n ≠ 0) : jsOrN (some n) d = n := by
  simp [jsOrN, h]

theorem jsOrN_ne_zero (o : Option Nat) (d : Nat) (hd : d ≠ 0) : jsOrN o d ≠ 0 := by
  cases o with
  | none => simpa [jsOrN] using hd
  | some n =>
    by_cases h : n = 0
    · simpa [jsOrN, h] using hd
    · simp [jsOrN, h]

theorem jsOrS_some_of_ne (s d : String) (h : s ≠ "") : jsOrS (some s) d = s := by
  simp [jsOrS, h]

theorem jsOrS_ne_empty (o : Option String) (d : String) (hd : d ≠ "") :
    jsOrS o d ≠ "" := by
  cases o with
  | none => simpa [jsOrS] using hd
  | some s =>
    by_cases h : s = ""
    · simpa [jsOrS, h] using hd
    · simp [jsOrS, h]

theorem char_toNat_ofNat_valid (n : Nat) (h : n.isValidChar) :
    (Char.ofNat n).toNat = n := by
  unfold Char.ofNat
  rw [dif_pos h]
  rfl

theorem char_toLower_idem (c : Char) : c.toLower.toLower = c.toLower := by
  unfold Char.toLower
  by_cases h : c.toNat ≥ 65 ∧ c.toNat ≤ 90
  · rw [if_pos h]
    have hval : (c.toNat + 32).isValidChar := by
      left
      omega
    rw [char_toNat_ofNat_valid _ hval, if_neg (by omega)]
  · rw [if_neg h, if_neg h]

theorem string_toLower_eq (s : String) :
    s.toLower = ⟨s.data.map Char.toLower⟩ := by
  unfold String.toLower
  rw [String.map_eq]

theorem string_toLower_idem (s : String) : s.toLower.toLower = s.toLower := by
  unfold String.toLower
  rw [String.map_eq, String.map_eq]
  dsimp only
  rw [List.map_map]
  exact congrArg String.mk (List.map_congr_left fun c _ => char_toLower_idem c)

theorem string_toLower_ne_empty (s : String) (h : s ≠ "") : s.toLower ≠ "" := by
  obtain ⟨d⟩ := s
  unfold String.toLower
  rw [String.map_eq]
  intro he
  apply h
  have hd : d.map Char.toLower = [] := congrArg String.data he
  have hnil : d = [] := List.map_eq_nil_iff.mp hd
  rw [hnil]

namespace ProductService

theorem normalizeProduct_encode (now1 now2 : String) (h1 : now1 ≠ "")
    (q : RawProduct) :
    normalizeProduct now2 (encodeProduct (normalizeProduct now1 q))
      = normalizeProduct now1 q := by
  have hst : jsOrS q.status "active" ≠ "" := jsOrS_ne_empty _ _ (by decide)
  have hstl : (jsOrS q.status "active").toLower ≠ "" := string_toLower_ne_empty _ hst
  have hcond : jsOrS q.condition "new" ≠ "" := jsOrS_ne_empty _ _ (by decide)
  have hcre : jsOrS q.created_at now1 ≠ "" := jsOrS_ne_empty _ _ h1
  have hupd : jsOrS q.updated_at now1 ≠ "" := jsOrS_ne_empty _ _ h1
  simp [normalizeProduct, encodeProduct, jsOrS_some_of_ne _ _ hstl,
    jsOrS_some_of_ne _ _ hcond, jsOrS_some_of_ne _ _ hcre,
    jsOrS_some_of_ne _ _ hupd, jsOrN_some_self, string_toLower_idem]

theorem getProductsNormalize_page_ne_zero (now : String) (r : RawListResponse) :
    (getProductsNormalize now r).page ≠ 0 := by
  cases r with
  | arr ps => simp [getProductsNormalize]
  | obj o =>
    cases hp : o.products with
    | some ps => simp [getProductsNormalize, hp, jsOrN_ne_zero]
    | none => simp [getProductsNormalize, hp, jsOrN_ne_zero]

theorem getProductsNormalize_pages_ne_zero (now : String) (r : RawListResponse) :
    (getProductsNormalize now r).pages ≠ 0 := by
  cases r with
  | arr ps => simp [getProductsNormalize]
  | obj o =>
    cases hp : o.products with
    | some ps => simp [getProductsNormalize, hp, jsOrN_ne_zero]
    | none => simp [getProductsNormalize, hp, jsOrN_ne_zero]

theorem getProductsNormalize_items_shape (now : String) (r : RawListResponse) :
    ∃ l : List RawProduct,
      (getProductsNormalize now r).items = l.map (normalizeProduct now) := by
  cases r with
  | arr ps => exact ⟨ps, rfl⟩
  | obj o =>
    cases hp : o.products with
    | some ps => exact ⟨ps, by simp [getProductsNormalize, hp]⟩
    | none =>
      exact ⟨((o.items).orElse (fun _ => o.results)).getD [],
        by simp [getProductsNormalize, hp]⟩

end ProductService

/-- C3 (amended): the product-list normalizer maps a bare array of N
products to items/total N/page 1/limit N/pages 1; it maps an object
`{items, total: T, page: P, size: S, pages: Pg}` with positive `P`, `S`
and `Pg` to those items (each product-normalized) with `limit` taken from
`size` and the rest unchanged; and renormalizing an already-normalized
result reproduces it exactly whenever that result's `limit` is nonzero
(JavaScript `||` treats a `limit` of 0 as absent and replaces it by 10). -/
theorem product_list_normalization (now now2 : String) (hnow : now ≠ "")
    (ps its : List ProductService.RawProduct) (T P S Pg : Nat)
    (hP : P ≠ 0) (hS : S ≠ 0) (hPg : Pg ≠ 0)
    (r : ProductService.RawListResponse)
    (hlim : (ProductService.getProductsNormalize now r).limit ≠ 0) :
    ProductService.getProductsNormalize now (.arr ps)
      = { items := ps.map (ProductService.normalizeProduct now)
          total := ps.length
          page := 1
          limit := ps.length
          pages := 1 } ∧
    ProductService.getProductsNormalize now
        (.obj ⟨none, some its, none, some T, some P, some S, none, some Pg⟩)
      = { items := its.map (ProductService.normalizeProduct now)
          total := T
          page := P
          limit := S
          pages := Pg } ∧
    ProductService.getProductsNormalize now2
        (ProductService.encodeList (ProductService.getProductsNormalize now r))
      = ProductService.getProductsNormalize now r := by
  refine ⟨rfl, ?_, ?_⟩
  · simp only [ProductService.getProductsNormalize]
    simp [Option.orElse, jsOrN_some_self, jsOrN_some_of_ne _ _ hP,
      jsOrN_some_of_ne _ _ hS, jsOrN_some_of_ne _ _ hPg]
  · obtain ⟨l, hl⟩ := ProductService.getProductsNormalize_items_shape now r
    have hpage := ProductService.getProductsNormalize_page_ne_zero now r
    have hpages := ProductService.getProductsNormalize_pages_ne_zero now r
    set R := ProductService.getProductsNormalize now r with hR
    clear hR
    clear_value R
    obtain ⟨Ritems, Rtotal, Rpage, Rlimit, Rpages⟩ := R
    dsimp only at hl hpage hpages hlim
    simp only [ProductService.encodeList, ProductService.getProductsNormalize,
      Option.orElse, Option.getD_some, ProductService.ProductListResponse.mk.injEq]
    refine ⟨?_, jsOrN_some_self _, jsOrN_some_of_ne _ _ hpage, ?_,
      jsOrN_some_of_ne _ _ hpages⟩
    · rw [hl, List.map_map, List.map_map]
      exact List.map_congr_left fun q _ =>
        ProductService.normalizeProduct_encode now now2 hnow q
    · show jsOrN none (jsOrN (some Rlimit) 10) = Rlimit
      rw [show jsOrN none (jsOrN (some Rlimit) 10) = jsOrN (some Rlimit) 10 from rfl,
        jsOrN_some_of_ne _ _ hlim]

/-- C3 witness: renormalizing the normalization of a concrete object
response (size 12) reproduces it. -/
theorem product_list_normalization_witness :
    ProductService.getProductsNormalize "2025-02-02T00:00:00.000Z"
        (ProductService.encodeList (ProductService.getProductsNormalize
          "2025-01-01T00:00:00.000Z"
          (.obj ⟨none, some [], none, some 3, some 1, some 12, none, some 1⟩)))
      = ProductService.getProductsNormalize "2025-01-01T00:00:00.000Z"
          (.obj ⟨none, some [], none, some 3, some 1, some 12, none, some 1⟩) :=
  (product_list_normalization "2025-01-01T00:00:00.000Z" "2025-02-02T00:00:00.000Z"
    (by decide) [] [] 3 1 12 1 (by decide) (by decide) (by decide)
    (.obj ⟨none, some [], none, some 3, some 1, some 12, none, some 1⟩)
    (by decide)).2.2

/-- C3 counterexample: the normalizer is not idempotent as claimed — the
empty bare array normalizes to `limit = 0`, and renormalizing that result
turns `limit` into 10 (JavaScript `||` treats 0 as absent). -/
theorem product_list_normalization_not_idempotent :
    ProductService.getProductsNormalize "2025-01-01T00:00:00.000Z"
        (ProductService.encodeList (ProductService.getProductsNormalize
          "2025-01-01T00:00:00.000Z" (.arr [])))
      ≠ ProductService.getProductsNormalize "2025-01-01T00:00:00.000Z" (.arr []) := by
  decide

/-- C4 (amended): per-product normalization lowercases `status` (with
default "active"), fills the default `'new'` for a missing or empty
`condition` but does NOT lowercase a present condition, and fills defaults
quantity 0, is_featured false, images [], tags [] and the current ISO
timestamp for missing created_at/updated_at. -/
theorem product_normalization_defaults (now : String)
    (p : ProductService.RawProduct) :
    (∀ s, p.status = some s → s ≠ "" →
      (ProductService.normalizeProduct now p).status = s.toLower) ∧
    ((p.status = none ∨ p.status = some "") →
      (ProductService.normalizeProduct now p).status = "active") ∧
    (ProductService.normalizeProduct now p).condition = jsOrS p.condition "new" ∧
    (p.quantity = none → (ProductService.normalizeProduct now p).quantity = 0) ∧
    (p.is_featured = none → (ProductService.normalizeProduct now p).is_featured = false) ∧
    (p.images = none → (ProductService.normalizeProduct now p).images = []) ∧
    (p.tags = none → (ProductService.normalizeProduct now p).tags = []) ∧
    (p.created_at = none → (ProductService.normalizeProduct now p).created_at = now) ∧
    (p.updated_at = none → (ProductService.normalizeProduct now p).updated_at = now) := by
  refine ⟨?_, ?_, rfl, ?_, ?_, ?_, ?_, ?_, ?_⟩
  · intro s hs hne
    simp [ProductService.normalizeProduct, hs, jsOrS, hne]
  · intro hs
    rcases hs with hs | hs <;>
      simp [ProductService.normalizeProduct, hs, jsOrS, string_toLower_eq]
  · intro h; simp [ProductService.normalizeProduct, h, jsOrN]
  · intro h; simp [ProductService.normalizeProduct, h]
  · intro h; simp [ProductService.normalizeProduct, h]
  · intro h; simp [ProductService.normalizeProduct, h]
  · intro h; simp [ProductService.normalizeProduct, h, jsOrS]
  · intro h; simp [ProductService.normalizeProduct, h, jsOrS]

/-- C4 witness: a concrete product with status "ACTIVE" and everything
else missing gets status "active", condition "new" and all defaults. -/
theorem product_normalization_defaults_witness :
    (ProductService.normalizeProduct "2025-01-01T00:00:00.000Z"
        { id := "p1", name := "Bag", price := 100, status := some "ACTIVE",
          condition := none, quantity := none, is_featured := none,
          images := none, tags := none, created_at := none,
          updated_at := none }).status = "ACTIVE".toLower :=
  (product_normalization_defaults "2025-01-01T00:00:00.000Z"
    { id := "p1", name := "Bag", price := 100, status := some "ACTIVE",
      condition := none, quantity := none, is_featured := none,
      images := none, tags := none, created_at := none,
      updated_at := none }).1 "ACTIVE" rfl (by decide)

namespace ApiClient

theorem getHeader_setHeader_same (h : Headers) (n v : String) :
    getHeader (setHeader h n v) n = some v := by
  unfold getHeader setHeader
  rw [if_pos rfl]

theorem getHeader_setHeader_ne (h : Headers) (n1 n2 v : String)
    (hne : n2.toLower ≠ n1.toLower) :
    getHeader (setHeader h n1 v) n2 = getHeader h n2 := by
  unfold getHeader setHeader
  rw [if_neg hne]

theorem hasHeader_setHeader_ne (h : Headers) (n1 n2 v : String)
    (hne : n2.toLower ≠ n1.toLower) :
    hasHeader (setHeader h n1 v) n2 = hasHeader h n2 := by
  unfold hasHeader setHeader
  rw [if_neg hne]

theorem getHeader_eq_none_of_hasHeader_false (h : Headers) (n : String)
    (hh : hasHeader h n = false) : getHeader h n = none := by
  unfold hasHeader at hh
  unfold getHeader
  cases he : h n.toLower with
  | none => rfl
  | some v => rw [he] at hh; simp at hh

theorem auth_ne_contentType :
    ("Authorization" : String).toLower ≠ ("Content-Type" : String).toLower := by
  rw [string_toLower_eq, string_toLower_eq]
  decide

theorem getHeader_buildHeaders_auth (custom : Headers) (st : AuthState)
    (hcustom : hasHeader custom "Authorization" = false) :
    getHeader (buildHeaders custom st) "Authorization"
      = match st.token with
        | some t => if t = "" then none else some ("Bearer " ++ t)
        | none => none := by
  have hh1 : hasHeader
      (if hasHeader custom "Content-Type" then custom
       else setHeader custom "Content-Type" "application/json") "Authorization" = false := by
    by_cases hct : hasHeader custom "Content-Type"
    · rw [if_pos hct]; exact hcustom
    · rw [if_neg hct, hasHeader_setHeader_ne _ _ _ _ auth_ne_contentType]
      exact hcustom
  have hg1 : getHeader
      (if hasHeader custom "Content-Type" then custom
       else setHeader custom "Content-Type" "application/json") "Authorization" = none :=
    getHeader_eq_none_of_hasHeader_false _ _ hh1
  obtain ⟨token, refresh⟩ := st
  cases token with
  | none =>
    show getHeader (buildHeaders custom ⟨none, refresh⟩) "Authorization" = none
    simp only [buildHeaders]
    exact hg1
  | some t =>
    by_cases ht : t = ""
    · subst ht
      show getHeader (buildHeaders custom ⟨some "", refresh⟩) "Authorization" = none
      simp only [buildHeaders]
      rw [if_neg (by simp)]
      exact hg1
    · show getHeader (buildHeaders custom ⟨some t, refresh⟩) "Authorization"
          = if t = "" then none else some ("Bearer " ++ t)
      simp only [buildHeaders]
      rw [if_pos ⟨ht, hh1⟩, getHeader_setHeader_same, if_neg ht]

end ApiClient

/-- C5: after a login/register response whose access_token is non-empty,
any request whose caller did not set an Authorization header carries
`Authorization: Bearer <that token>`; after logout() both stored tokens
are gone regardless of whether the server call failed, and such requests
carry no Authorization header. -/
theorem auth_token_lifecycle (resp : AuthService.AuthResponse)
    (st : ApiClient.AuthState) (custom : ApiClient.Headers)
    (hresp : resp.access_token ≠ "")
    (hcustom : ApiClient.hasHeader custom "Authorization" = false) :
    ApiClient.getHeader
        (ApiClient.buildHeaders custom (AuthService.storeTokens resp st)) "Authorization"
      = some ("Bearer " ++ resp.access_token) ∧
    (∀ serverCallFailed : Bool,
      (AuthService.logoutState serverCallFailed (AuthService.storeTokens resp st)).token
          = none ∧
      (AuthService.logoutState serverCallFailed (AuthService.storeTokens resp st)).refresh
          = none ∧
      ApiClient.getHeader
          (ApiClient.buildHeaders custom
            (AuthService.logoutState serverCallFailed (AuthService.storeTokens resp st)))
          "Authorization" = none) := by
  have htok : (AuthService.storeTokens resp st).token = some resp.access_token := by
    simp [AuthService.storeTokens, hresp]
  constructor
  · rw [ApiClient.getHeader_buildHeaders_auth custom _ hcustom, htok]
    simp [hresp]
  · intro serverCallFailed
    refine ⟨rfl, rfl, ?_⟩
    rw [ApiClient.getHeader_buildHeaders_auth custom _ hcustom]
    rfl

/-- C5 witness: logging in with token "tok123" over empty custom headers
yields the bearer header, and logging out removes it. -/
theorem auth_token_lifecycle_witness :
    ApiClient.getHeader
        (ApiClient.buildHeaders ApiClient.emptyHeaders
          (AuthService.storeTokens ⟨"tok123", "ref456"⟩ ⟨none, none⟩)) "Authorization"
      = some ("Bearer " ++ "tok123") ∧
    ApiClient.getHeader
        (ApiClient.buildHeaders ApiClient.emptyHeaders
          (AuthService.logoutState true
            (AuthService.storeTokens ⟨"tok123", "ref456"⟩ ⟨none, none⟩)))
        "Authorization" = none :=
  ⟨(auth_token_lifecycle ⟨"tok123", "ref456"⟩ ⟨none, none⟩ ApiClient.emptyHeaders
      (by decide) rfl).1,
   ((auth_token_lifecycle ⟨"tok123", "ref456"⟩ ⟨none, none⟩ ApiClient.emptyHeaders
      (by decide) rfl).2 true).2.2⟩

/-- C6: with no conversation id held locally, a successful turn carrying
a (non-empty) conversation id adopts it; the adopted id is sent with and
survives every subsequent turn, and an erroring turn never changes the
held id. -/
theorem chat_conversation_id_persistence (st : Option String) (id : String)
    (hst : jsTruthyS st = false) (hid : id ≠ "") :
    Marketplace.stepConversation st (.ok (some id)) = some id ∧
    (∀ s, Marketplace.stepConversation s .err = s) ∧
    (∀ trace : List Marketplace.TurnOutcome,
      trace.foldl Marketplace.stepConversation (some id) = some id ∧
      Marketplace.sentConversationId
          (trace.foldl Marketplace.stepConversation (some id)) = some id) := by
  have h2 : jsTruthyS (some id) = true := by simp [jsTruthyS, hid]
  have hkeep : ∀ o, Marketplace.stepConversation (some id) o = some id := by
    intro o
    cases o with
    | err => rfl
    | ok respId =>
      simp [Marketplace.stepConversation, h2]
  have hfold : ∀ trace : List Marketplace.TurnOutcome,
      trace.foldl Marketplace.stepConversation (some id) = some id := by
    intro trace
    induction trace with
    | nil => rfl
    | cons o os ih => rw [List.foldl_cons, hkeep o, ih]
  refine ⟨?_, fun s => rfl, fun trace => ⟨hfold trace, ?_⟩⟩
  · simp [Marketplace.stepConversation, hst, h2]
  · rw [hfold trace]
    simp [Marketplace.sentConversationId, h2]

/-- C6 witness: the id "conv-1" adopted on the first turn survives an
erroring turn and a later response carrying a different id. -/
theorem chat_conversation_id_witness :
    Marketplace.stepConversation none (.ok (some "conv-1")) = some "conv-1" ∧
    [Marketplace.TurnOutcome.err,
      Marketplace.TurnOutcome.ok (some "other")].foldl
        Marketplace.stepConversation (some "conv-1") = some "conv-1" :=
  ⟨(chat_conversation_id_persistence none "conv-1" rfl (by decide)).1,
   ((chat_conversation_id_persistence none "conv-1" rfl (by decide)).2.2
      [.err, .ok (some "other")]).1⟩

/-- C7 counterexample: an empty bare-array response from the categories
endpoint yields an empty category list, not the synthetic "General"
option the claim requires. -/
theorem categories_empty_list_not_general :
    CreateProduct.fetchCategoriesResult (.ok (.arr [])) = [] ∧
    CreateProduct.fetchCategoriesResult (.ok (.arr []))
      ≠ [CreateProduct.generalCategory] := by
  exact ⟨rfl, by decide⟩

/-- C7 (amended): the single synthetic "General" category appears exactly
when the request rejects or the response object has neither a
`categories` nor an `items` field; an array response — including the
empty array — is adopted as-is, as is a present `categories`/`items`
field. -/
theorem categories_fallback (e : Unit) (cs : List CreateProduct.Category) :
    CreateProduct.fetchCategoriesResult (.error e) = [CreateProduct.generalCategory] ∧
    CreateProduct.fetchCategoriesResult (.ok (.obj none none))
      = [CreateProduct.generalCategory] ∧
    CreateProduct.fetchCategoriesResult (.ok (.arr cs)) = cs ∧
    CreateProduct.fetchCategoriesResult (.ok (.obj (some cs) none)) = cs ∧
    CreateProduct.fetchCategoriesResult (.ok (.obj none (some cs))) = cs :=
  ⟨rfl, rfl, rfl, rfl, rfl⟩

/-- C8: the client timeout defaults to 30,000 ms; a fetch that does not
settle within it is aborted and surfaces as the typed error
"Request timeout" with status 408; any other rejection is propagated
unchanged, and a settled response passes through. -/
theorem request_timeout_handling {ρ : Type} (e : ApiClient.JsError) (r : ρ)
    (he : e.name ≠ "AbortError") :
    ApiClient.API_CONFIG_TIMEOUT = 30000 ∧
    ApiClient.fetchWithTimeout (ρ := ρ) .timedOut
      = .error (.inr ⟨"Request timeout", some 408⟩) ∧
    ApiClient.fetchWithTimeout (.settled (.error e) : ApiClient.FetchOutcome ρ)
      = .error (.inl e) ∧
    ApiClient.fetchWithTimeout (.settled (.ok r)) = .ok r := by
  refine ⟨rfl, rfl, ?_, rfl⟩
  simp [ApiClient.fetchWithTimeout, he]

/-- C8 witness: a non-abort rejection (a TypeError) is propagated
unchanged. -/
theorem request_timeout_handling_witness :
    ApiClient.fetchWithTimeout
        (.settled (.error ⟨"TypeError", "Failed to fetch"⟩) : ApiClient.FetchOutcome Nat)
      = .error (.inl ⟨"TypeError", "Failed to fetch"⟩) :=
  (request_timeout_handling ⟨"TypeError", "Failed to fetch"⟩ (0 : Nat) (by decide)).2.2.1

/-- C9: an image selection that would push the product-creation form past
5 staged images is rejected with an error toast and leaves the staged
list unchanged (so the count never exceeds 5), and an AI-Assistant image
over 5 MB is rejected with an error toast and nothing is staged. -/
theorem image_limits {α : Type} (staged : Option String)
    (images newFiles : List α) (size : Nat) (dataUrl : String)
    (hcount : images.length ≤ 5) :
    (newFiles.length + images.length > 5 →
      CreateProduct.handleImageChange images newFiles = (images, true)) ∧
    (CreateProduct.handleImageChange images newFiles).1.length ≤ 5 ∧
    (size > 5 * 1024 * 1024 →
      AIAssistant.handleImageUpload staged (some (size, dataUrl)) = (staged, true)) := by
  refine ⟨?_, ?_, ?_⟩
  · intro h
    simp [CreateProduct.handleImageChange, h]
  · by_cases h : newFiles.length + images.length > 5
    · simpa [CreateProduct.handleImageChange, h] using hcount
    · simp only [CreateProduct.handleImageChange, if_neg h, List.length_append]
      omega
  · intro h
    simp [AIAssistant.handleImageUpload, h]

/-- C9 witness: a 6th file is rejected leaving the five staged images
untouched, and a 6 MB image is rejected with nothing staged. -/
theorem image_limits_witness :
    CreateProduct.handleImageChange [0, 1, 2, 3, 4] [9] = ([0, 1, 2, 3, 4], true) ∧
    AIAssistant.handleImageUpload none (some (6 * 1024 * 1024, "data-url"))
      = (none, true) :=
  ⟨(image_limits none [0, 1, 2, 3, 4] [9] (6 * 1024 * 1024) "data-url"
      (by decide)).1 (by decide),
   (image_limits none ([0, 1, 2, 3, 4] : List Nat) [9] (6 * 1024 * 1024) "data-url"
      (by decide)).2.2 (by decide)⟩

/-- C10: the URL built by the API client carries a query pair exactly for
the keys of the params bag whose values are neither `undefined` nor
`null` (stringified); when no bag is given, no query string is appended. -/
theorem build_url_params (baseUrl endpoint : String)
    (ps : List (String × ApiClient.JsVal)) (k s : String) :
    ApiClient.buildUrl baseUrl endpoint none = (baseUrl ++ endpoint, []) ∧
    ApiClient.renderUrl (ApiClient.buildUrl baseUrl endpoint none) = baseUrl ++ endpoint ∧
    ((k, s) ∈ (ApiClient.buildUrl baseUrl endpoint (some ps)).2 ↔
      ∃ v, (k, v) ∈ ps ∧ v ≠ .undef ∧ v ≠ .jsNull ∧ s = ApiClient.jsValToString v) := by
  refine ⟨rfl, by simp [ApiClient.renderUrl, ApiClient.buildUrl], ?_⟩
  show (k, s) ∈ ApiClient.buildQuery ps ↔ _
  unfold ApiClient.buildQuery
  rw [List.mem_filterMap]
  constructor
  · rintro ⟨⟨k0, v0⟩, hmem, heq⟩
    cases v0 with
    | undef => simp at heq
    | jsNull => simp at heq
    | str a =>
      simp only [Option.some_inj, Prod.mk.injEq] at heq
      exact ⟨.str a, heq.1 ▸ hmem, by simp, by simp, heq.2.symm⟩
    | num a =>
      simp only [Option.some_inj, Prod.mk.injEq] at heq
      exact ⟨.num a, heq.1 ▸ hmem, by simp, by simp, heq.2.symm⟩
    | boolean a =>
      simp only [Option.some_inj, Prod.mk.injEq] at heq
      exact ⟨.boolean a, heq.1 ▸ hmem, by simp, by simp, heq.2.symm⟩
  · rintro ⟨v, hv, h1, h2, rfl⟩
    refine ⟨(k, v), hv, ?_⟩
    cases v with
    | undef => exact absurd rfl h1
    | jsNull => exact absurd rfl h2
    | str a => rfl
    | num a => rfl
    | boolean a => rfl

/-- C4 counterexample: a present `condition` is NOT lowercased — the raw
condition "NEW" survives normalization verbatim, while the claim requires
"new". -/
theorem product_condition_not_lowercased :
    (ProductService.normalizeProduct "2025-01-01T00:00:00.000Z"
        { id := "p1", name := "Bag", price := 100, status := some "ACTIVE",
          condition := some "NEW", quantity := none, is_featured := none,
          images := none, tags := none, created_at := none,
          updated_at := none }).condition = "NEW" ∧
    (ProductService.normalizeProduct "2025-01-01T00:00:00.000Z"
        { id := "p1", name := "Bag", price := 100, status := some "ACTIVE",
          condition := some "NEW", quantity := none, is_featured := none,
          images := none, tags := none, created_at := none,
          updated_at := none }).condition ≠ "new" := by
  constructor
  · rfl
  · decide

end Adogent
